import Mathlib

set_option maxRecDepth 40000

/-!
Verification of the `gamlr` clock-offset estimator (`src/offset_estimator.rs`).

The Rust source works on IEEE-754 binary64 floats (`f64`) with round-to-nearest,
ties-to-even.  We embed `f64` shallowly and exactly: a float is either a NaN, a
signed infinity, a signed zero, or a finite dyadic value `m * 2^e`, and each
arithmetic operation of the source is modelled by exact rational arithmetic
followed by correct rounding.  The transcendental calls of the `libm` crate are
modelled as the correctly rounded double-precision functions: `libm::sqrt` is
correctly rounded by IEEE-754, `libm::log` is modelled by a proven-width
interval evaluation of the natural logarithm (returning `nan` if the interval
fails to resolve the rounding, which does not occur on the traces used here),
and `libm::pow(x, 2.0)` is modelled as the correctly rounded square `x * x`.

The pseudorandom generator is exact 64-bit integer arithmetic and is embedded
over `Nat` with explicit `% 2^64` reductions.  Rejection-sampling loops of the
source (`marsaglia_polar_sample` and the Marsaglia–Tsang accept loop) are
embedded with a fuel parameter; `none` models non-termination within fuel or a
`panic!` (the only panic sites are the `partial_cmp(..).unwrap()` comparator of
`sort_values`, modelled as `none` when a NaN is present in a list of length at
least two, and the out-of-bounds index `y[i]` in `estimate_offset`, modelled by
`List.get?`).
-/

namespace Gamlr

/-- Bit length of a natural number below `2^64` (fueled halving). -/
def bitlen64 : Nat → Nat → Nat
  | 0, _ => 0
  | f+1, n => if n = 0 then 0 else 1 + bitlen64 f (n >>> 1)

/-- Bit length, processing 64 bits per fuel step (supports up to 16384 bits). -/
def bitlenA : Nat → Nat → Nat
  | 0, _ => 0
  | f+1, n => if n < 18446744073709551616 then bitlen64 64 n else 64 + bitlenA f (n >>> 64)

/-- Bit length of a natural number: `bitlen n = ⌈log2 (n+1)⌉`, `bitlen 0 = 0`. -/
def bitlen (n : Nat) : Nat := bitlenA 256 n

/-- Ceiling division on naturals. -/
def ceilDiv (a b : Nat) : Nat := (a + b - 1) / b

/-- IEEE-754 binary64 value: NaN, signed infinity (`true` = negative), signed
zero (`true` = negative), or a finite nonzero dyadic `m * 2^e`.  Values built
by the rounding functions are canonical: either `e = -1074` and `0 < |m| < 2^53`
(subnormal range) or `e > -1074` and `2^52 ≤ |m| < 2^53`. -/
inductive F64 where
  | nan : F64
  | inf : Bool → F64
  | zero : Bool → F64
  | fin : Int → Int → F64
deriving DecidableEq, Repr

/-- Negation of a float (IEEE sign flip; `-NaN` is identified with `NaN`). -/
def fneg : F64 → F64
  | F64.nan => F64.nan
  | F64.inf s => F64.inf (!s)
  | F64.zero s => F64.zero (!s)
  | F64.fin m e => F64.fin (-m) e

/-- Whether a float is a finite value (zero included). -/
def F64.isFinite : F64 → Bool
  | F64.nan => false
  | F64.inf _ => false
  | F64.zero _ => true
  | F64.fin _ _ => true

/-- Whether a float is NaN. -/
def F64.isNan : F64 → Bool
  | F64.nan => true
  | _ => false

/-- Round a positive rational `num / den` (both positive) to the nearest
binary64 value, ties to even, with subnormal underflow and overflow to
infinity. -/
def roundPosRat (num den : Nat) : F64 :=
  let e0 : Int := (bitlen num : Int) - (bitlen den : Int) - 53
  let q0 : Nat := if 0 ≤ e0 then num / (den <<< e0.toNat) else (num <<< (-e0).toNat) / den
  let e1 : Int := if 9007199254740992 ≤ q0 then e0 + 1 else e0
  let e2 : Int := if e1 < -1074 then -1074 else e1
  let n2 : Nat := if 0 ≤ e2 then num else num <<< (-e2).toNat
  let d2 : Nat := if 0 ≤ e2 then den <<< e2.toNat else den
  let q : Nat := n2 / d2
  let r : Nat := n2 % d2
  let q1 : Nat := if d2 < 2*r ∨ (2*r = d2 ∧ q % 2 = 1) then q + 1 else q
  if q1 = 0 then F64.zero false
  else if q1 = 9007199254740992 then
    (if 971 < e2 + 1 then F64.inf false else F64.fin 4503599627370496 (e2 + 1))
  else if 971 < e2 then F64.inf false
  else F64.fin (Int.ofNat q1) e2

/-- Round a signed rational to nearest-even binary64; `neg` gives the sign
(a zero result keeps the sign, matching IEEE rounding of a tiny value). -/
def roundRatSigned (neg : Bool) (num den : Nat) : F64 :=
  if num = 0 then F64.zero false
  else if neg then fneg (roundPosRat num den) else roundPosRat num den

/-- Round an exact dyadic `m * 2^e` to nearest-even binary64. -/
def roundDyadic (m : Int) (e : Int) : F64 :=
  if 0 ≤ e then roundRatSigned (decide (m < 0)) (m.natAbs <<< e.toNat) 1
  else roundRatSigned (decide (m < 0)) m.natAbs (1 <<< (-e).toNat)

/-- Compare two exact dyadics `m1 * 2^e1` and `m2 * 2^e2`. -/
def dyCmp (m1 e1 m2 e2 : Int) : Ordering :=
  let s1 : Nat := if e2 ≤ e1 then (e1 - e2).toNat else 0
  let s2 : Nat := if e1 ≤ e2 then (e2 - e1).toNat else 0
  let x : Int := m1 * Int.ofNat (1 <<< s1)
  let y : Int := m2 * Int.ofNat (1 <<< s2)
  if x < y then Ordering.lt else if x = y then Ordering.eq else Ordering.gt

/-- IEEE comparison: `none` when an operand is NaN, zeros of both signs are
equal. -/
def fcmp : F64 → F64 → Option Ordering
  | F64.nan, _ => none
  | _, F64.nan => none
  | F64.inf s1, F64.inf s2 =>
      some (if s1 = s2 then Ordering.eq else if s1 then Ordering.lt else Ordering.gt)
  | F64.inf s1, _ => some (if s1 then Ordering.lt else Ordering.gt)
  | _, F64.inf s2 => some (if s2 then Ordering.gt else Ordering.lt)
  | F64.zero _, F64.zero _ => some Ordering.eq
  | F64.zero _, F64.fin m _ =>
      some (if m < 0 then Ordering.gt else if m = 0 then Ordering.eq else Ordering.lt)
  | F64.fin m _, F64.zero _ =>
      some (if m < 0 then Ordering.lt else if m = 0 then Ordering.eq else Ordering.gt)
  | F64.fin m1 e1, F64.fin m2 e2 => some (dyCmp m1 e1 m2 e2)

/-- The `<` comparison of `f64` (false on NaN operands). -/
def flt (a b : F64) : Bool :=
  match fcmp a b with
  | some Ordering.lt => true
  | _ => false

/-- The `<=` comparison of `f64` (false on NaN operands). -/
def fle (a b : F64) : Bool :=
  match fcmp a b with
  | some Ordering.lt => true
  | some Ordering.eq => true
  | _ => false

/-- The `==` comparison of `f64` (false on NaN operands, `-0.0 == 0.0`). -/
def feq (a b : F64) : Bool :=
  match fcmp a b with
  | some Ordering.eq => true
  | _ => false

/-- IEEE addition with round-to-nearest-even. -/
def fadd : F64 → F64 → F64
  | F64.nan, _ => F64.nan
  | _, F64.nan => F64.nan
  | F64.inf s1, F64.inf s2 => if s1 = s2 then F64.inf s1 else F64.nan
  | F64.inf s1, _ => F64.inf s1
  | _, F64.inf s2 => F64.inf s2
  | F64.zero s1, F64.zero s2 => F64.zero (s1 && s2)
  | F64.zero _, F64.fin m e => F64.fin m e
  | F64.fin m e, F64.zero _ => F64.fin m e
  | F64.fin m1 e1, F64.fin m2 e2 =>
      let E : Int := min e1 e2
      let M : Int := m1 * Int.ofNat (1 <<< (e1 - E).toNat) + m2 * Int.ofNat (1 <<< (e2 - E).toNat)
      if M = 0 then F64.zero false else roundDyadic M E

/-- IEEE subtraction: `a - b = a + (-b)`. -/
def fsub (a b : F64) : F64 := fadd a (fneg b)

/-- IEEE multiplication with round-to-nearest-even. -/
def fmul : F64 → F64 → F64
  | F64.nan, _ => F64.nan
  | _, F64.nan => F64.nan
  | F64.inf s1, F64.inf s2 => F64.inf (xor s1 s2)
  | F64.inf _, F64.zero _ => F64.nan
  | F64.zero _, F64.inf _ => F64.nan
  | F64.inf s1, F64.fin m _ => if m = 0 then F64.nan else F64.inf (xor s1 (decide (m < 0)))
  | F64.fin m _, F64.inf s2 => if m = 0 then F64.nan else F64.inf (xor (decide (m < 0)) s2)
  | F64.zero s1, F64.zero s2 => F64.zero (xor s1 s2)
  | F64.zero s1, F64.fin m _ => F64.zero (xor s1 (decide (m < 0)))
  | F64.fin m _, F64.zero s2 => F64.zero (xor (decide (m < 0)) s2)
  | F64.fin m1 e1, F64.fin m2 e2 =>
      if m1 * m2 = 0 then F64.zero (xor (decide (m1 < 0)) (decide (m2 < 0)))
      else roundDyadic (m1 * m2) (e1 + e2)

/-- IEEE division with round-to-nearest-even. -/
def fdiv : F64 → F64 → F64
  | F64.nan, _ => F64.nan
  | _, F64.nan => F64.nan
  | F64.inf _, F64.inf _ => F64.nan
  | F64.inf s1, F64.zero s2 => F64.inf (xor s1 s2)
  | F64.inf s1, F64.fin m _ => F64.inf (xor s1 (decide (m < 0)))
  | F64.zero s1, F64.inf s2 => F64.zero (xor s1 s2)
  | F64.fin m _, F64.inf s2 => F64.zero (xor (decide (m < 0)) s2)
  | F64.zero _, F64.zero _ => F64.nan
  | F64.zero s1, F64.fin m _ => if m = 0 then F64.nan else F64.zero (xor s1 (decide (m < 0)))
  | F64.fin m _, F64.zero s2 => if m = 0 then F64.nan else F64.inf (xor (decide (m < 0)) s2)
  | F64.fin m1 e1, F64.fin m2 e2 =>
      if m2 = 0 then (if m1 = 0 then F64.nan else F64.inf (decide (m1 < 0)))
      else if m1 = 0 then F64.zero (xor false (decide (m2 < 0)))
      else
        let d : Int := e1 - e2
        let num : Nat := if 0 ≤ d then m1.natAbs <<< d.toNat else m1.natAbs
        let den : Nat := if 0 ≤ d then m2.natAbs else m2.natAbs <<< (-d).toNat
        roundRatSigned (xor (decide (m1 < 0)) (decide (m2 < 0))) num den

/-- Rust `f64::max`: ignores a NaN operand, otherwise the larger value. -/
def fmaxRust (a b : F64) : F64 :=
  if a = F64.nan then b else if b = F64.nan then a else if flt a b then b else a

/-- Rust `f64::min`: ignores a NaN operand, otherwise the smaller value. -/
def fminRust (a b : F64) : F64 :=
  if a = F64.nan then b else if b = F64.nan then a else if flt b a then b else a

/-- Rust `u64 as f64` conversion (round to nearest even). -/
def natToF64 (n : Nat) : F64 :=
  if n = 0 then F64.zero false else roundPosRat n 1

/-- Absolute value of a float. -/
def fabs : F64 → F64
  | F64.nan => F64.nan
  | F64.inf _ => F64.inf false
  | F64.zero _ => F64.zero false
  | F64.fin m e => F64.fin (Int.ofNat m.natAbs) e

/-- A double literal written as a decimal fraction `num / den` in the Rust
source (rounded to nearest even, as Rust rounds float literals). -/
def ofRatLit (num den : Nat) : F64 :=
  if num = 0 then F64.zero false else roundPosRat num den

/-- Newton iteration for the integer square root, monotonically decreasing. -/
def isqrtGo (n : Nat) : Nat → Nat → Nat
  | 0, x => x
  | f+1, x =>
      let x1 := (x + n / x) / 2
      if x1 < x then isqrtGo n f x1 else x

/-- Integer square root `⌊√n⌋`. -/
def isqrt (n : Nat) : Nat :=
  if n = 0 then 0 else isqrtGo n 120 (1 <<< (bitlen n / 2 + 1))

/-- Model of `libm::sqrt`: correctly rounded square root (IEEE-754 requires
`sqrt` to be correctly rounded, which the musl `sqrt` satisfies). -/
def fsqrt : F64 → F64
  | F64.nan => F64.nan
  | F64.zero s => F64.zero s
  | F64.inf s => if s then F64.nan else F64.inf false
  | F64.fin m e =>
      if m < 0 then F64.nan
      else if m = 0 then F64.zero false
      else
        let mN := m.toNat
        let L : Int := (bitlen mN : Int) + e
        let f : Int := Int.fdiv (L - 105) 2
        let d : Int := e - 2*f
        let Y : Nat := if 0 ≤ d then mN <<< d.toNat else mN >>> (-d).toNat
        let r0 := isqrt Y
        let rhs : Nat := (2*r0+1)*(2*r0+1)
        let up : Bool :=
          if 0 ≤ d + 2 then
            (if rhs < mN <<< (d+2).toNat then true
             else if mN <<< (d+2).toNat = rhs then r0 % 2 = 1 else false)
          else
            (if rhs <<< (-(d+2)).toNat < mN then true
             else if mN = rhs <<< (-(d+2)).toNat then r0 % 2 = 1 else false)
        let r1 := if up then r0 + 1 else r0
        if r1 = 9007199254740992 then F64.fin 4503599627370496 (f+1)
        else F64.fin (Int.ofNat r1) f

/-- Floor of `ln 2 * 2^140`: dyadic enclosure of `ln 2` at 140 fractional bits. -/
def lnTwo140 : Nat := 966106166171702452789019208761976768099343

/-- Interval evaluation of `atanh(a/b)` (for `0 < a < b`, `a/b ≤ 1/5`) at
fixed-point scale `2^140`: iterates the odd power series with directed
(floor/ceiling) rounding.  Returns `(sLo, sHi, pLo, pHi)` where `[sLo, sHi]`
encloses the partial sum scaled by `2^140` and `(pLo, pHi)` encloses the next
odd power of `a/b` scaled by `2^140`. -/
def atanhGo (a2 b2 : Nat) : Nat → Nat → Nat → Nat → Nat → Nat → Nat × Nat × Nat × Nat
  | 0, _, pLo, pHi, sLo, sHi => (sLo, sHi, pLo, pHi)
  | f+1, i, pLo, pHi, sLo, sHi =>
      atanhGo a2 b2 f (i+1) (pLo * a2 / b2) (ceilDiv (pHi * a2) b2)
        (sLo + pLo / (2*i+1)) (sHi + ceilDiv pHi (2*i+1))

/-- Model of `libm::log`: the natural logarithm, correctly rounded, computed by
a rigorous interval enclosure (range reduction `x = t · 2^k` with
`t ∈ (2/3, 4/3]`, then `ln t = 2·atanh((t-1)/(t+1))` by the odd power series
with 22 terms and an explicit tail bound, plus `k · ln 2` from a 140-bit
enclosure of `ln 2`).  If the enclosure does not determine the rounding the
function returns NaN; on every trace appearing in this development it does. -/
def flog : F64 → F64
  | F64.nan => F64.nan
  | F64.zero _ => F64.inf true
  | F64.inf s => if s then F64.nan else F64.inf false
  | F64.fin m e =>
      if m < 0 then F64.nan
      else if m = 0 then F64.inf true
      else
        let mN := m.toNat
        let bl := bitlen mN
        let cond : Bool := 1 <<< (bl+1) < 3 * mN
        let j : Nat := if cond then bl else bl - 1
        let k : Int := (bl : Int) + e - 1 + (if cond then 1 else 0)
        let p2 : Nat := 1 <<< j
        let b : Nat := mN + p2
        let kl : Int × Int :=
          if 0 ≤ k then (k * (lnTwo140 : Int), k * ((lnTwo140 : Int) + 1))
          else (k * ((lnTwo140 : Int) + 1), k * (lnTwo140 : Int))
        if mN = p2 then
          (if k = 0 then F64.zero false
           else
             let fLo := roundDyadic kl.1 (-140)
             let fHi := roundDyadic kl.2 (-140)
             if fLo = fHi then fLo else F64.nan)
        else
          let neg : Bool := mN < p2
          let a : Nat := if neg then p2 - mN else mN - p2
          let st := atanhGo (a*a) (b*b) 22 0 (a <<< 140 / b) (ceilDiv (a <<< 140) b) 0 0
          let sLo := st.1
          let sHi := st.2.1 + st.2.2.2 * 25 / 24 + 1
          let ll : Int × Int :=
            if neg then (-(2 * (sHi : Int)), -(2 * (sLo : Int)))
            else (2 * (sLo : Int), 2 * (sHi : Int))
          let fLo := roundDyadic (ll.1 + kl.1) (-140)
          let fHi := roundDyadic (ll.2 + kl.2) (-140)
          if fLo = fHi then fLo else F64.nan

/-- Model of `libm::pow(x, 2.0)`: the correctly rounded square `x * x` (the
source only calls `libm::pow` with exponent `2.0`). -/
def powTwo (x : F64) : F64 := fmul x x

/-- Source constant `A: u64` (Knuth multiplier). -/
def lcgA : Nat := 6364136223846793005

/-- Source constant `C: u64` (increment). -/
def lcgC : Nat := 1442695040888963407

/-- Source `struct LcgRng`: state and the three constants, all 64-bit unsigned,
embedded as `Nat` (all reachable states are below `2^64`). -/
structure LcgRng where
  state : Nat
  a : Nat
  c : Nat
  m : Nat
deriving DecidableEq, Repr

/-- Source `LcgRng::new(seed)`: fixed constants, `m = u64::MAX`. -/
def LcgRng.new (seed : Nat) : LcgRng :=
  { state := seed, a := lcgA, c := lcgC, m := 18446744073709551615 }

/-- Source `LcgRng::next_u64`: `state = (a.wrapping_mul(state).wrapping_add(c)) % m`,
returning the new state.  The wrapping operations are reductions mod `2^64`;
the `% m` is the explicit modulus field `u64::MAX = 2^64 - 1`. -/
def LcgRng.next_u64 (r : LcgRng) : Nat × LcgRng :=
  let s := ((r.a * r.state) % 18446744073709551616 + r.c) % 18446744073709551616 % r.m
  (s, { r with state := s })

/-- Source `LcgRng::gen_range(range)`: uniform draw
`range.start + (raw as f64 / u64::MAX as f64) * (range.end - range.start)`. -/
def LcgRng.gen_range (r : LcgRng) (lo hi : F64) : F64 × LcgRng :=
  let p := r.next_u64
  let randomF64 := fdiv (natToF64 p.1) (natToF64 18446744073709551615)
  (fadd lo (fmul randomF64 (fsub hi lo)), p.2)

/-- The literal `1.0`. -/
def oneF : F64 := ofRatLit 1 1

/-- The literal `-1.0`. -/
def negOneF : F64 := fneg oneF

/-- The literal `0.0`. -/
def zeroF : F64 := F64.zero false

/-- The literal `0.5`. -/
def halfF : F64 := ofRatLit 5 10

/-- The literal `3.0`. -/
def threeF : F64 := ofRatLit 3 1

/-- The literal `4.0` (`MAX_ALPHA`). -/
def fourF : F64 := ofRatLit 4 1

/-- The literal `-2.0`. -/
def negTwoF : F64 := fneg (ofRatLit 2 1)

/-- The literal `0.0331`. -/
def c0331F : F64 := ofRatLit 331 10000

/-- Source `LcgRng::marsaglia_polar_sample`, with fuel for the rejection loop
(`none` models exhaustion): draw `u, v` uniform in `(-1, 1)`, accept when
`s = u*u + v*v` satisfies `s < 1.0 && s != 0.0`, and return
`u * sqrt(-2.0 * log(s) / s)`. -/
def marsaglia_polar_sample : Nat → LcgRng → Option (F64 × LcgRng)
  | 0, _ => none
  | fuel+1, r =>
      let pu := r.gen_range negOneF oneF
      let pv := pu.2.gen_range negOneF oneF
      let u := pu.1
      let s := fadd (fmul u u) (fmul pv.1 pv.1)
      if flt s oneF && !(feq s zeroF) then
        some (fmul u (fsqrt (fdiv (fmul negTwoF (flog s)) s)), pv.2)
      else marsaglia_polar_sample fuel pv.2

/-- Fuel used for each rejection loop (ample for every concrete trace here). -/
def loopFuel : Nat := 60

/-- The Marsaglia–Tsang accept loop of `generate_random_gamma_values` for one
variate, given `d` and `c`; `none` models fuel exhaustion. -/
def gammaLoop (d c beta : F64) : Nat → LcgRng → Option (F64 × LcgRng)
  | 0, _ => none
  | fuel+1, rng =>
      match marsaglia_polar_sample loopFuel rng with
      | none => none
      | some px =>
          let x := px.1
          let r1 := px.2
          let v := fadd oneF (fmul c x)
          if fle v zeroF then gammaLoop d c beta fuel r1
          else
            let v3 := fmul (fmul v v) v
            let pu := r1.gen_range zeroF oneF
            let u := pu.1
            let x2 := fmul x x
            if flt u (fsub oneF (fmul (fmul c0331F x2) x2))
                || flt (flog u) (fadd (fmul halfF x2) (fmul d (fadd (fsub oneF v3) (flog v3)))) then
              some (fmul (fmul d v3) beta, pu.2)
            else gammaLoop d c beta fuel pu.2

/-- The per-variate body of `generate_random_gamma_values`: recompute
`d = alpha - 1.0/3.0` and `c = (1.0/3.0)/sqrt(d)` and run the accept loop,
threading the generator state through all variates. -/
def gammaGo (alpha beta : F64) : Nat → LcgRng → Option (List F64)
  | 0, _ => some []
  | n+1, rng =>
      let d := fsub alpha (fdiv oneF threeF)
      let c := fdiv (fdiv oneF threeF) (fsqrt d)
      match gammaLoop d c beta loopFuel rng with
      | none => none
      | some pv => (gammaGo alpha beta n pv.2).map (fun rest => pv.1 :: rest)

/-- Source `generate_random_gamma_values(alpha, beta, num_samples, seed)`. -/
def generate_random_gamma_values (alpha beta : F64) (numSamples : Nat) (seed : Nat) :
    Option (List F64) :=
  gammaGo alpha beta numSamples (LcgRng.new seed)

/-- Left fold of `f64` addition starting at `0.0`: the Rust
`Iterator::sum::<f64>()`. -/
def sumF64 (xs : List F64) : F64 := xs.foldl fadd zeroF

/-- Source `estimate_gamma_parameters(x)`: method-of-moments fit
`(mean² / var, var / mean)` with Bessel-corrected variance; `pow(_, 2.0)`
is modelled by `powTwo`. -/
def estimate_gamma_parameters (x : List F64) : F64 × F64 :=
  let n := natToF64 x.length
  let meanX := fdiv (sumF64 x) n
  let sumSqDiff := sumF64 (x.map (fun xi => powTwo (fsub xi meanX)))
  let varX := fdiv sumSqDiff (fsub n oneF)
  (fdiv (powTwo meanX) varX, fdiv varX meanX)

/-- Stable insertion of an element into a sorted list by `<`. -/
def insertSorted (x : F64) : List F64 → List F64
  | [] => [x]
  | y :: ys => if flt x y then x :: y :: ys else y :: insertSorted x ys

/-- Source `sort_values(values)`: ascending sort by
`partial_cmp(..).unwrap()`.  `partial_cmp` is `None` exactly on a NaN operand
and the resulting `unwrap` panic is modelled as `none`; a list of length ≥ 2
containing a NaN always compares a NaN during sorting. -/
def sort_values (values : List F64) : Option (List F64) :=
  if values.any F64.isNan && 2 ≤ values.length then none
  else some (values.foldl (fun acc x => insertSorted x acc) [])

/-- The regression-point loop of `estimate_offset`: for `i` in `0..n`, push
`y[i]` and `x_sort[i] - (i + 1 - 0.5) / n`.  Indexing is by `List.get?`;
`none` models the out-of-bounds panic of `y[i]`. -/
def regrPoints (xSort y : List F64) (n : Nat) : Nat → Nat → Option (List (F64 × F64))
  | _, 0 => some []
  | i, k+1 =>
      match xSort.get? i, y.get? i with
      | some xi, some yi =>
          let rank := natToF64 (i+1)
          let p := fdiv (fsub rank halfF) (natToF64 n)
          (regrPoints xSort y n (i+1) k).map (fun rest => (fsub xi p, yi) :: rest)
      | _, _ => none

/-- The ordinary-least-squares slope and intercept of `estimate_offset`
(`beta = Σ(x-x̄)(y-ȳ) / Σ(x-x̄)², gamma = ȳ - beta * x̄`). -/
def regressionFit (pts : List (F64 × F64)) : F64 × F64 :=
  let xr := pts.map Prod.fst
  let yr := pts.map Prod.snd
  let xMean := fdiv (sumF64 xr) (natToF64 xr.length)
  let yMean := fdiv (sumF64 yr) (natToF64 yr.length)
  let num := sumF64 (pts.map (fun p => fmul (fsub p.1 xMean) (fsub p.2 yMean)))
  let den := sumF64 (xr.map (fun x => powTwo (fsub x xMean)))
  let beta := fdiv num den
  (beta, fsub yMean (fmul beta xMean))

/-- Source `estimate_offset(x_sort, y)`: build the regression points, fit the line,
and return `-gamma / beta` (the x-intercept).  `none` models the index panic
when `y` is shorter than `x_sort`. -/
def estimate_offset (xSort y : List F64) : Option F64 :=
  let n := xSort.length
  (regrPoints xSort y n 0 n).map (fun pts =>
    let fit := regressionFit pts
    fdiv (fneg fit.2) fit.1)

/-- The clamp `alpha.max(MIN_ALPHA).min(MAX_ALPHA)` of `estimate`. -/
def clampAlpha (alpha : F64) : F64 := fminRust (fmaxRust alpha oneF) fourF

/-- Source `estimate(time_values, seed)`: fit Gamma parameters, clamp `alpha`,
generate synthetic variates with the given or derived seed, sort both
sequences, and delegate to `estimate_offset`.  `none` models a panic or fuel
exhaustion. -/
def estimate (timeValues : List F64) (seed : Option Nat) : Option F64 :=
  let n := timeValues.length
  let ab := estimate_gamma_parameters timeValues
  let alpha := clampAlpha ab.1
  let lcgSeed := (LcgRng.new 0).next_u64.1
  match generate_random_gamma_values alpha ab.2 n (seed.getD lcgSeed) with
  | none => none
  | some randomValues =>
      match sort_values timeValues, sort_values randomValues with
      | some sorted, some randomSorted => estimate_offset sorted randomSorted
      | _, _ => none

/-- Successive `next_u64` outputs of a generator, threading the state. -/
def lcgDrawsGo : Nat → LcgRng → List Nat
  | 0, _ => []
  | k+1, r => let p := r.next_u64; p.1 :: lcgDrawsGo k p.2

/-- The raw draw sequence of a generator seeded with `s`: `k` successive
`next_u64` outputs. -/
def lcgDraws (s : Nat) (k : Nat) : List Nat := lcgDrawsGo k (LcgRng.new s)

/-! ### Order lemmas on the float comparison -/

lemma dyCmp_swap (m1 e1 m2 e2 : Int) : dyCmp m2 e2 m1 e1 = (dyCmp m1 e1 m2 e2).swap := by
  simp only [dyCmp]
  set x := m1 * Int.ofNat (1 <<< (if e2 ≤ e1 then (e1 - e2).toNat else 0)) with hx
  set y := m2 * Int.ofNat (1 <<< (if e1 ≤ e2 then (e2 - e1).toNat else 0)) with hy
  rcases lt_trichotomy x y with h | h | h
  · simp [h, not_lt.mpr (le_of_lt h), ne_of_gt h, Ordering.swap]
  · simp [h, Ordering.swap]
  · simp [not_lt.mpr (le_of_lt h), h, ne_of_gt h, (ne_of_gt h).symm, Ordering.swap]

lemma flt_false_fle_one (a : F64) (ha : a ≠ F64.nan) (h : flt a oneF = false) :
    fle oneF a = true := by
  cases a with
  | nan => exact absurd rfl ha
  | inf s =>
      cases s with
      | false => decide
      | true => exact absurd h (by decide)
  | zero s =>
      cases s with
      | false => exact absurd h (by decide)
      | true => exact absurd h (by decide)
  | fin m e =>
      have hone : oneF = F64.fin 4503599627370496 (-52) := by decide
      rw [hone] at h ⊢
      have hsw := dyCmp_swap m e 4503599627370496 (-52)
      simp only [flt, fcmp] at h
      simp only [fle, fcmp, hsw]
      cases hd : dyCmp m e 4503599627370496 (-52) with
      | lt => rw [hd] at h; simp at h
      | eq => rfl
      | gt => rfl

lemma flt_false_fle_four (a : F64) (ha : a ≠ F64.nan) (h : flt fourF a = false) :
    fle a fourF = true := by
  cases a with
  | nan => exact absurd rfl ha
  | inf s =>
      cases s with
      | false => exact absurd h (by decide)
      | true => decide
  | zero s =>
      cases s with
      | false => decide
      | true => decide
  | fin m e =>
      have hfour : fourF = F64.fin 4503599627370496 (-50) := by decide
      rw [hfour] at h ⊢
      have hsw := dyCmp_swap 4503599627370496 (-50) m e
      simp only [flt, fcmp] at h
      simp only [fle, fcmp, hsw]
      cases hd : dyCmp 4503599627370496 (-50) m e with
      | lt => rw [hd] at h; simp at h
      | eq => rfl
      | gt => rfl

/-- The clamp of `estimate` always lands in the interval `[1.0, 4.0]`,
whatever float (NaN and infinities included) the raw moment estimate is. -/
lemma clampAlpha_bounds (a : F64) :
    fle oneF (clampAlpha a) = true ∧ fle (clampAlpha a) fourF = true := by
  unfold clampAlpha
  by_cases hnan : a = F64.nan
  · subst hnan
    decide
  · have hone : fmaxRust a oneF = if flt a oneF then oneF else a := by
      unfold fmaxRust
      rw [if_neg hnan, if_neg (by decide : ¬ (oneF = F64.nan))]
    by_cases hlt : flt a oneF = true
    · rw [hone, if_pos hlt]
      decide
    · rw [hone, if_neg hlt]
      have h1 : fle oneF a = true :=
        flt_false_fle_one a hnan (Bool.not_eq_true _ ▸ hlt)
      have hmin : fminRust a fourF = if flt fourF a then fourF else a := by
        unfold fminRust
        rw [if_neg hnan, if_neg (by decide : ¬ (fourF = F64.nan))]
      by_cases hlt2 : flt fourF a = true
      · rw [hmin, if_pos hlt2]
        decide
      · rw [hmin, if_neg hlt2]
        exact ⟨h1, flt_false_fle_four a hnan (Bool.not_eq_true _ ▸ hlt2)⟩

/-! ### Index lemmas for `estimate_offset` -/

lemma regrPoints_isSome (xs ys : List F64) (n : Nat) :
    ∀ (k i : Nat), i + k ≤ xs.length → i + k ≤ ys.length →
      (regrPoints xs ys n i k).isSome = true := by
  intro k
  induction k with
  | zero => intro i _ _; rfl
  | succ k ih =>
      intro i hx hy
      rcases hxs : xs.get? i with _ | xi
      · have := List.get?_eq_none.mp hxs
        omega
      rcases hys : ys.get? i with _ | yi
      · have := List.get?_eq_none.mp hys
        omega
      simp only [regrPoints]
      rw [hxs, hys]
      simp only [Option.isSome_map']
      exact ih (i+1) (by omega) (by omega)

lemma regrPoints_none (xs ys : List F64) (n : Nat) :
    ∀ (k i : Nat), i ≤ ys.length → ys.length < i + k → i + k ≤ xs.length →
      regrPoints xs ys n i k = none := by
  intro k
  induction k with
  | zero => intro i h1 h2 _; omega
  | succ k ih =>
      intro i h1 h2 h3
      by_cases hi : i < ys.length
      · rcases hxs : xs.get? i with _ | xi
        · have := List.get?_eq_none.mp hxs
          omega
        rcases hys : ys.get? i with _ | yi
        · have := List.get?_eq_none.mp hys
          omega
        simp only [regrPoints]
        rw [hxs, hys]
        simp only [Option.map_eq_none']
        exact ih (i+1) (by omega) (by omega) (by omega)
      · have hys : ys.get? i = none := List.get?_eq_none.mpr (by omega)
        rcases hxs : xs.get? i with _ | xi <;>
          · simp only [regrPoints]
            rw [hxs, hys]

/-! ### The claims -/

/-- C1 counterexample.  The claim states that `estimate` always returns either
a finite offset or one of the typed errors and never a NaN.  The source has no
error channel at all (`estimate` returns a bare `f64`), and on the empty input
sequence it returns NaN: the mean is `0.0 / 0.0`, and every later stage
propagates the NaN to the returned offset. -/
theorem C1_counterexample :
    estimate [] none = some F64.nan ∧ F64.nan.isFinite = false := by
  constructor
  · decide
  · rfl

/-- C1 amended.  `estimate` returns a raw `f64` with no typed-error channel;
degenerate inputs produce NaN rather than an error value: the empty input
yields NaN for every seed choice. -/
theorem C1_amended (s : Option Nat) : estimate [] s = some F64.nan := by
  cases s <;> rfl

/-- C2 counterexample.  The claim states that a zero fitted slope is reported
as the typed error `DegenerateRegression` instead of an infinite or NaN
value.  For the ascending pair `x = [0.0, 1.0]` and the constant
`y = [5.0, 5.0]` the slope is `+0.0` and `estimate_offset` returns
`-gamma / beta = -5.0 / 0.0 = -∞`: an infinite value, no typed error. -/
theorem C2_counterexample :
    estimate_offset [zeroF, oneF] [ofRatLit 5 1, ofRatLit 5 1] = some (F64.inf true) ∧
    (F64.inf true).isFinite = false := by
  constructor
  · decide
  · rfl

/-- C2 amended.  When the fitted slope `beta` is zero, `estimate_offset`
returns the untyped IEEE quotient `-gamma / beta` (±infinity, or NaN when
`gamma` is also zero) rather than reporting an error: for `x = [0.0, 1.0]`,
`y = [5.0, 5.0]` the computed slope is `+0.0` and the result is `-∞`. -/
theorem C2_amended :
    ((regrPoints [zeroF, oneF] [ofRatLit 5 1, ofRatLit 5 1] 2 0 2).map
        (fun pts => (regressionFit pts).1)) = some (F64.zero false) ∧
    estimate_offset [zeroF, oneF] [ofRatLit 5 1, ofRatLit 5 1] = some (F64.inf true) := by
  constructor
  · decide
  · decide

/-- C3 counterexample.  The claim states that `next()` computes
`(a * state + c) mod m` in exact integer arithmetic with `m = u64::MAX`.  The
source computes with wrapping (mod `2^64`) arithmetic first and only then
reduces `mod u64::MAX`; at state `3` the two differ by one. -/
theorem C3_counterexample :
    (LcgRng.new 3).next_u64.1 ≠ (lcgA * 3 + lcgC) % (2^64 - 1) := by
  decide

/-- C3 amended.  `new(seed)` fixes `a = 6364136223846793005`,
`c = 1442695040888963407`, `m = u64::MAX = 2^64 - 1`, and `next()` updates the
state to `((a * state + c) mod 2^64) mod (2^64 - 1)` — 64-bit wrapping
multiply-add followed by reduction modulo `u64::MAX` — and returns the new
state. -/
theorem C3_amended (s : Nat) :
    (LcgRng.new s).a = 6364136223846793005 ∧
    (LcgRng.new s).c = 1442695040888963407 ∧
    (LcgRng.new s).m = 2^64 - 1 ∧
    (LcgRng.new s).next_u64.1
      = ((6364136223846793005 * s + 1442695040888963407) % 2^64) % (2^64 - 1) ∧
    (LcgRng.new s).next_u64.2.state = (LcgRng.new s).next_u64.1 := by
  refine ⟨rfl, rfl, by norm_num [LcgRng.new], ?_, rfl⟩
  show (lcgA * s % 18446744073709551616 + lcgC) % 18446744073709551616 % 18446744073709551615
      = (lcgA * s + lcgC) % 2^64 % (2^64 - 1)
  have h1 : (lcgA * s % 18446744073709551616 + lcgC) % 18446744073709551616
      = (lcgA * s + lcgC) % 18446744073709551616 := by
    conv_rhs => rw [Nat.add_mod]
    norm_num [lcgC]
  rw [h1]
  norm_num

/-- C4.  For the input samples `[0.1, 0.2, 0.3, 0.4, 0.5]` and seed `43`,
`estimate` returns exactly the double nearest `0.19495758127356233` (that
decimal is the shortest module representation of the returned double).  The
whole pipeline — moment fit, clamp, five Marsaglia–Tsang variates (each
accepted on the first draw), sorting, and the QQ regression — is evaluated in
exact IEEE-754 binary64 arithmetic. -/
theorem C4_fixture :
    estimate [ofRatLit 1 10, ofRatLit 2 10, ofRatLit 3 10, ofRatLit 4 10, ofRatLit 5 10]
        (some 43)
      = some (ofRatLit 19495758127356233 100000000000000000) := by
  decide

/-- C5.  Determinism: two generators seeded equally produce identical raw draw
sequences, and the Gamma variate generator output is a function of
`(alpha, beta, count, seed)` only — equal arguments give equal output
sequences (the generator state threads sequentially through all draws). -/
theorem C5_determinism (s1 s2 k : Nat) (a1 a2 b1 b2 : F64) (n1 n2 sd1 sd2 : Nat)
    (hs : s1 = s2) (ha : a1 = a2) (hb : b1 = b2) (hn : n1 = n2) (hsd : sd1 = sd2) :
    lcgDraws s1 k = lcgDraws s2 k ∧
    generate_random_gamma_values a1 b1 n1 sd1 = generate_random_gamma_values a2 b2 n2 sd2 := by
  subst hs ha hb hn hsd
  exact ⟨rfl, rfl⟩

/-- C5 witness: the determinism theorem applied at seed `7`, three draws, and
a concrete Gamma generation `(alpha, beta, count, seed) = (1.0, 1.0, 1, 5)`. -/
theorem C5_witness :
    lcgDraws 7 3 = lcgDraws 7 3 ∧
    generate_random_gamma_values oneF oneF 1 5 = generate_random_gamma_values oneF oneF 1 5 :=
  C5_determinism 7 7 3 oneF oneF oneF oneF 1 1 5 5 rfl rfl rfl rfl rfl

/-- C6 counterexample.  The claim states `|estimate_offset(v, v)| < 1e-1` for
every ascending sorted `v` of length ≥ 2.  For `v = [0.0, 4.0]` (strictly
ascending) the offset is `-0.2500000000000001`, whose absolute value is not
below `0.1`. -/
theorem C6_counterexample :
    flt zeroF fourF = true ∧
    estimate_offset [zeroF, fourF] [zeroF, fourF]
      = some (F64.fin (-4503599627370498) (-54)) ∧
    flt (fabs (F64.fin (-4503599627370498) (-54))) (ofRatLit 1 10) = false := by
  refine ⟨by decide, by decide, by decide⟩

/-- C6 amended.  The reflexivity bound `|estimate_offset(v, v)| < 1e-1` does
not hold for every sorted sample; for `v = [0.0, 4.0]` the offset is within
`1e-1` of `-0.25` instead (rank-based plotting positions shift the x values,
so the fitted intercept is away from zero for small or wide samples). -/
theorem C6_amended :
    estimate_offset [zeroF, fourF] [zeroF, fourF]
      = some (F64.fin (-4503599627370498) (-54)) ∧
    flt (fabs (fadd (F64.fin (-4503599627370498) (-54)) (ofRatLit 25 100)))
        (ofRatLit 1 10) = true := by
  refine ⟨by decide, by decide⟩

/-- C7 counterexample.  The claim states the uniform draw always lies in the
half-open interval `[low, high)` and never equals `high`.  With seed
`4167968118069574677` the first raw draw is `2^64 - 1024`, which the `u64 →
f64` conversion rounds to `2^64`; dividing by `u64::MAX as f64 = 2^64` yields
exactly `1.0`, and `gen_range(0.0..1.0)` returns `1.0 = high`. -/
theorem C7_counterexample :
    flt zeroF oneF = true ∧
    ((LcgRng.new 4167968118069574677).gen_range zeroF oneF).1 = oneF := by
  refine ⟨by decide, by decide⟩

/-- C7 amended.  For every generator state and every pair of bounds, the
uniform draw returns `low + (raw as f64 / u64::MAX as f64) * (high - low)`
evaluated in double arithmetic, where `raw` is the next generator output and
`u64::MAX as f64` is the double `2^64` (not `2^64 - 1`); the returned value
does not always lie in the half-open interval `[low, high)`: it equals `high`
at bounds `(0.0, 1.0)` when the raw draw rounds to `2^64`, as for the first
raw draw `2^64 - 1024` at seed `4167968118069574677`, while at a typical seed
such as `12345` the draw at those bounds does lie in `[0.0, 1.0)`. -/
theorem C7_amended :
    (∀ (r : LcgRng) (lo hi : F64),
      (r.gen_range lo hi).1
        = fadd lo (fmul (fdiv (natToF64 r.next_u64.1) (natToF64 18446744073709551615))
            (fsub hi lo))) ∧
    natToF64 18446744073709551615 = F64.fin 4503599627370496 12 ∧
    (LcgRng.new 4167968118069574677).next_u64.1 = 18446744073709550592 ∧
    ((LcgRng.new 4167968118069574677).gen_range zeroF oneF).1 = oneF ∧
    fle zeroF ((LcgRng.new 12345).gen_range zeroF oneF).1 = true ∧
    flt ((LcgRng.new 12345).gen_range zeroF oneF).1 oneF = true := by
  refine ⟨fun r lo hi => rfl, by decide, by decide, by decide, by decide, by decide⟩

/-- C8.  In every invocation of `estimate`, the `alpha` handed to
`generate_random_gamma_values` is `clampAlpha` of the raw moment estimate,
and that clamp lands in `[1.0, 4.0]` for every possible input sample list —
including degenerate fits where the raw `alpha` is NaN (Rust `max`/`min`
ignore a NaN operand) or infinite. -/
theorem C8_alpha_clamped (samples : List F64) :
    fle oneF (clampAlpha (estimate_gamma_parameters samples).1) = true ∧
    fle (clampAlpha (estimate_gamma_parameters samples).1) fourF = true :=
  clampAlpha_bounds (estimate_gamma_parameters samples).1

/-- C9 counterexample.  The claim states `alpha = 3.6` exactly for the samples
`[0.1, 0.2, 0.3, 0.4, 0.5]`.  The computed value is the double below `3.6`:
`3.5999999999999996` (`0x1.cccccccccccccp+1`), one unit in the last place
short of the double nearest `3.6` (`0x1.ccccccccccccdp+1`). -/
theorem C9_counterexample :
    (estimate_gamma_parameters
        [ofRatLit 1 10, ofRatLit 2 10, ofRatLit 3 10, ofRatLit 4 10, ofRatLit 5 10]).1
      = F64.fin 8106479329266892 (-51) ∧
    F64.fin 8106479329266892 (-51) ≠ ofRatLit 36 10 := by
  refine ⟨by decide, by decide⟩

/-- C9 amended.  For the samples `[0.1, 0.2, 0.3, 0.4, 0.5]` the estimator
returns exactly `alpha = 3.5999999999999996` (the double one ulp below `3.6`)
and `beta = 0.08333333333333334` (as claimed) in double precision. -/
theorem C9_amended :
    estimate_gamma_parameters
        [ofRatLit 1 10, ofRatLit 2 10, ofRatLit 3 10, ofRatLit 4 10, ofRatLit 5 10]
      = (ofRatLit 35999999999999996 10000000000000000,
         ofRatLit 8333333333333334 100000000000000000) := by
  decide

/-- C10.  `estimate_offset` reads `y[i]` for every `i` in `0..x_sort.len()`:
under equal lengths every access is in bounds and the function returns a
value (the out-of-bounds branch is unreachable), while a strictly shorter
second sequence reaches an invalid index and panics (modelled as `none`). -/
theorem C10_index_bounds (x y : List F64) :
    (x.length = y.length → (estimate_offset x y).isSome = true) ∧
    (y.length < x.length → estimate_offset x y = none) := by
  constructor
  · intro h
    unfold estimate_offset
    rw [Option.isSome_map']
    exact regrPoints_isSome x y x.length x.length 0 (by omega) (by omega)
  · intro h
    unfold estimate_offset
    rw [Option.map_eq_none']
    exact regrPoints_none x y x.length x.length 0 (by omega) (by omega) (by omega)

/-- C10 witness: equal lengths `[0.0, 1.0]` vs `[0.0, 1.0]` give a result;
the shorter second list `[]` against `[1.0]` hits the out-of-bounds branch. -/
theorem C10_witness :
    (estimate_offset [zeroF, oneF] [zeroF, oneF]).isSome = true ∧
    estimate_offset [oneF] [] = none :=
  ⟨(C10_index_bounds [zeroF, oneF] [zeroF, oneF]).1 rfl,
   (C10_index_bounds [oneF] []).2 (by decide)⟩

end Gamlr
